import Mathlib

/-!
# Vault dynamic-secret generator (`pkg/generator/vault/vault.go`)

A shallow embedding of `generate`, `fetchVaultSecret`, `prepareResponse` and `parseSpec`.

* Go pointers are `Option`, Go multi-value returns are tuples, the Go `error` interface is
  `Option GoError` (`none` is the nil error).
* A Go map is `GoMap V`: either the nil map or an allocated table.  The entry order of a table
  is the order in which `range` visits its keys; Go leaves that order unspecified, so every
  statement below is quantified over all tables, hence over all visiting orders.
* The backend handle `cl.Logical()` is a function from the issued call to the pair
  `(result, err)` it answers with; the calls issued are recorded in a log.
* The JSON and YAML codecs of the Go libraries and the client factory are parameters.
* The `context.Context` argument is not modelled.
-/

namespace VaultDynamic

/-! ## Go values -/

/-- A Go `[]byte`. -/
abbrev Bytes := List UInt8

/-- The Go conversion `[]byte(s)` of a (UTF-8) string. -/
def bytes (s : String) : Bytes := s.data.flatMap String.utf8EncodeChar

/-- Values of the Go `error` interface that this package builds or passes on. -/
inductive GoError where
  /-- The value of `errors.New(text)`. -/
  | New (text : String)
  /-- The value of `fmt.Errorf(format, err)` for a format with one `%w` verb. -/
  | Errorf (format : String) (err : GoError)
  /-- Modelled from the spec: the `ValueConversionError` of the shared conversion rule, which
  names the offending key (section 4.2 of the spec). -/
  | ValueConversion (key : String)
  deriving DecidableEq, Repr

/-- Text of a one-verb format: the first `%w` is replaced by the text of the argument. -/
def sprintfW : List Char → List Char → List Char
  | [], _ => []
  | [c], _ => [c]
  | c :: d :: rest, arg =>
    if c = '%' ∧ d = 'w' then arg ++ rest else c :: sprintfW (d :: rest) arg

/-- A JSON document as the Go decoder hands it out in an `any`: `nil`, `bool`, a number (kept
as its literal text, as `json.Number` does), `string`, `[]any` or `map[string]any`. -/
inductive JSONValue where
  | null
  | bool (b : Bool)
  | number (literal : String)
  | string (s : String)
  | array (items : List JSONValue)
  | object (fields : List (String × JSONValue))

/-- A Go map with string keys: the nil map, or a table with pairwise distinct keys. -/
inductive GoMap (V : Type) where
  | nil
  | table (t : AList (fun _ : String => V))

namespace GoMap

variable {V : Type}

/-- The Go expression `make(map[string]V)`. -/
def make : GoMap V := table ∅

/-- The comma-ok lookup `v, ok := m[k]`; reading the nil map finds nothing. -/
def index : GoMap V → String → Option V
  | nil, _ => none
  | table t, k => t.lookup k

/-- The keys in the order `for k := range m` visits them; the nil map has none. -/
def keys : GoMap V → List String
  | nil => []
  | table t => t.keys

/-- The Go builtin `len(m)`. -/
def len (m : GoMap V) : Nat := m.keys.length

end GoMap

/-! ## API types -/

/-- The type `apiextensions.JSON`: a raw document. -/
structure JSON where
  Raw : Bytes
  deriving DecidableEq, Repr

/-- The type `genv1alpha1.GeneratorProviderState`, a pointer to a raw document. -/
abbrev GeneratorProviderState := Option JSON

/-- Modelled from the spec: the result-type constant `VaultDynamicSecretResultTypeAuth` of the
generator API package, which is declared outside `vault.go` (section 6 of the
spec: `resultType` is a string enum, default / `Auth` / `Raw`). -/
def VaultDynamicSecretResultTypeAuth : String := "Auth"

/-- Modelled from the spec: the result-type constant `VaultDynamicSecretResultTypeRaw` of the
generator API package, which is declared outside `vault.go` (section 6 of the
spec: `resultType` is a string enum, default / `Auth` / `Raw`). -/
def VaultDynamicSecretResultTypeRaw : String := "Raw"

/-- The fields of `genv1alpha1.VaultDynamicSecretSpec` that the generator reads.  `P` is the
type of the provider configuration, `R` that of the retry settings. -/
structure VaultDynamicSecretSpec (P R : Type) where
  Method : String
  Parameters : Option JSON
  ResultType : String
  RetrySettings : Option R
  Provider : Option P
  Path : String
  AllowEmptyResponse : Bool

/-- The type `genv1alpha1.VaultDynamicSecret`. -/
structure VaultDynamicSecret (P R : Type) where
  Spec : VaultDynamicSecretSpec P R

/-- The fields of `vault.Secret` that the generator reads: `Data` and the pointer `Auth`
(`A` is the type `vault.SecretAuth`); `Rest` stands for all its other fields, which only the
encoding of the whole value sees. -/
structure Secret (A M : Type) where
  Data : GoMap JSONValue
  Auth : Option A
  Rest : M

/-- The calls of `cl.Logical()` that the generator issues, with their arguments. -/
inductive BackendCall where
  | ReadWithDataWithContext (path : String) (data : GoMap (List String))
  | ListWithContext (path : String)
  | DeleteWithContext (path : String)
  | WriteWithContext (path : String) (data : GoMap JSONValue)

/-- The backend handle `util.Client`: what each call answers, a `(result, err)` pair. -/
abbrev Client (A M : Type) := BackendCall → Option (Secret A M) × Option GoError

/-- The library functions the generator calls, as parameters. -/
structure Codec (P R A M : Type) where
  /-- The call `yaml.Unmarshal(data, &spec)` on a zero `spec`: the value afterwards, the error. -/
  yamlUnmarshal : Bytes → VaultDynamicSecret P R × Option GoError
  /-- The call `json.Unmarshal(data, &m)`: the map `m` afterwards and the error. -/
  jsonUnmarshal : Bytes → GoMap JSONValue → GoMap JSONValue × Option GoError
  /-- The call `json.Marshal(result.Auth)`. -/
  jsonMarshalAuth : Option A → Bytes × Option GoError
  /-- The call `json.Marshal(result)`. -/
  jsonMarshalSecret : Secret A M → Bytes × Option GoError

/-- The method `NewGeneratorClient` of `provider.Provider`, applied to the provider
configuration, the namespace and the retry settings: a client, or the error. -/
abbrev NewGeneratorClient (P R A M : Type) :=
  P → String → Option R → Except GoError (Client A M)

/-! ## The generator -/

def errNoSpec : String := "no config spec provided"

def errParseSpec : String := "unable to parse spec: %w"

def errVaultClient : String := "unable to setup Vault client: %w"

def errGetSecret : String := "unable to get dynamic secret: %w"

/-- Modelled from the spec: the shared conversion rule `utils.GetByteValueFromMap`, a helper of
the repository that is defined outside `vault.go`.  Section 3 of the spec: the conversion
supports strings, numbers and booleans and fails for nested objects and arrays; section 4.2:
the failure is a `ValueConversionError` naming the offending key; section 8: a string gives
its bytes.  The spec leaves open the byte form of numbers and booleans and what null gives:
here a number gives its literal text, a boolean `true` or `false`, and null (as well as a key
the map lacks) the empty byte sequence. -/
def GetByteValueFromMap (data : GoMap JSONValue) (key : String) : Bytes × Option GoError :=
  match data.index key with
  | some (JSONValue.string s) => (bytes s, none)
  | some (JSONValue.number n) => (bytes n, none)
  | some (JSONValue.bool b) => (bytes (if b then "true" else "false"), none)
  | some (JSONValue.array _) => ([], some (GoError.ValueConversion key))
  | some (JSONValue.object _) => ([], some (GoError.ValueConversion key))
  | some JSONValue.null => ([], none)
  | none => ([], none)

section Generator

variable {P R A M : Type}

/-- One call on the backend handle: its answer, and the call in the log. -/
def issue (cl : Client A M) (call : BackendCall) :
    (Option (Secret A M) × Option GoError) × List BackendCall :=
  (cl call, [call])

/-- The function `parseSpec`: the address of the decoded value (never nil) and the error. -/
def parseSpec (lib : Codec P R A M) (data : Bytes) :
    Option (VaultDynamicSecret P R) × Option GoError :=
  let (spec, err) := lib.yamlUnmarshal data
  (some spec, err)

/-- The method `fetchVaultSecret`: the returned `(result, err)` and the backend calls made. -/
def fetchVaultSecret (lib : Codec P R A M) (res : VaultDynamicSecret P R) (cl : Client A M) :
    (Option (Secret A M) × Option GoError) × List BackendCall :=
  if res.Spec.Method = "" ∨ res.Spec.Method = "GET" then
    issue cl (BackendCall.ReadWithDataWithContext res.Spec.Path GoMap.nil)
  else if res.Spec.Method = "LIST" then
    issue cl (BackendCall.ListWithContext res.Spec.Path)
  else if res.Spec.Method = "DELETE" then
    issue cl (BackendCall.DeleteWithContext res.Spec.Path)
  else
    let params : GoMap JSONValue := GoMap.make
    match res.Spec.Parameters with
    | some parameters =>
      match lib.jsonUnmarshal parameters.Raw params with
      | (_, some err) => ((none, some err), [])
      | (params, none) => issue cl (BackendCall.WriteWithContext res.Spec.Path params)
    | none => issue cl (BackendCall.WriteWithContext res.Spec.Path params)

/-- The loop `for k := range data` of `prepareResponse`, over the keys still to visit, with
the `response` table built so far.  As in the source, `response[k]` is assigned before the
error of the conversion is looked at. -/
def rangeLoop (data : GoMap JSONValue) :
    List String → AList (fun _ : String => Bytes) →
      GoMap Bytes × GeneratorProviderState × Option GoError
  | [], response => (GoMap.table response, none, none)
  | k :: ks, response =>
    let (v, err) := GetByteValueFromMap data k
    let response := response.insert k v
    match err with
    | some e => (GoMap.nil, none, some e)
    | none => rangeLoop data ks response

/-- The method `prepareResponse`, for a non-nil `result`. -/
def prepareResponse (lib : Codec P R A M) (res : VaultDynamicSecret P R) (result : Secret A M) :
    GoMap Bytes × GeneratorProviderState × Option GoError :=
  let data : GoMap JSONValue := GoMap.make
  let response : AList (fun _ : String => Bytes) := ∅
  if res.Spec.ResultType = VaultDynamicSecretResultTypeAuth then
    match lib.jsonMarshalAuth result.Auth with
    | (_, some err) => (GoMap.nil, none, some err)
    | (authJSON, none) =>
      match lib.jsonUnmarshal authJSON data with
      | (_, some err) => (GoMap.nil, none, some err)
      | (data, none) => rangeLoop data data.keys response
  else if res.Spec.ResultType = VaultDynamicSecretResultTypeRaw then
    match lib.jsonMarshalSecret result with
    | (_, some err) => (GoMap.nil, none, some err)
    | (rawJSON, none) =>
      match lib.jsonUnmarshal rawJSON data with
      | (_, some err) => (GoMap.nil, none, some err)
      | (data, none) => rangeLoop data data.keys response
  else
    rangeLoop result.Data result.Data.keys response

/-- The method `generate`: the returned `(map, state, err)` and the backend calls made. -/
def generate (lib : Codec P R A M) (c : NewGeneratorClient P R A M) (jsonSpec : Option JSON)
    (ns : String) :
    (GoMap Bytes × GeneratorProviderState × Option GoError) × List BackendCall :=
  match jsonSpec with
  | none => ((GoMap.nil, none, some (GoError.New errNoSpec)), [])
  | some js =>
    match parseSpec lib js.Raw with
    | (_, some err) => ((GoMap.nil, none, some (GoError.Errorf errParseSpec err)), [])
    | (none, none) =>
      ((GoMap.nil, none, some (GoError.New "no Vault provider config in spec")), [])
    | (some spec, none) =>
      match spec.Spec.Provider with
      | none => ((GoMap.nil, none, some (GoError.New "no Vault provider config in spec")), [])
      | some provider =>
        match c provider ns spec.Spec.RetrySettings with
        | Except.error err => ((GoMap.nil, none, some (GoError.Errorf errVaultClient err)), [])
        | Except.ok cl =>
          match fetchVaultSecret lib spec cl with
          | ((_, some err), log) => ((GoMap.nil, none, some err), log)
          | ((none, none), log) =>
            if spec.Spec.AllowEmptyResponse then ((GoMap.nil, none, none), log)
            else
              ((GoMap.nil, none,
                some (GoError.Errorf errGetSecret (GoError.New "empty response from Vault"))), log)
          | ((some result, none), log) => (prepareResponse lib spec result, log)

end Generator

/-! ## Notions used to state the properties -/

/-- The table the loop has built once every key of `ks` has been converted. -/
def inserted (data : GoMap JSONValue) (ks : List String)
    (response : AList (fun _ : String => Bytes)) : AList (fun _ : String => Bytes) :=
  ks.foldl (fun t k => t.insert k (GetByteValueFromMap data k).1) response

/-- The source data that `prepareResponse` selects for its loop: the re-encoded `Auth`, the
re-encoded whole response, or `result.Data`; `none` when the re-encoding fails. -/
def sourceData {P R A M : Type} (lib : Codec P R A M) (res : VaultDynamicSecret P R)
    (result : Secret A M) : Option (GoMap JSONValue) :=
  if res.Spec.ResultType = VaultDynamicSecretResultTypeAuth then
    match lib.jsonMarshalAuth result.Auth with
    | (_, some _) => none
    | (authJSON, none) =>
      match lib.jsonUnmarshal authJSON GoMap.make with
      | (_, some _) => none
      | (data, none) => some data
  else if res.Spec.ResultType = VaultDynamicSecretResultTypeRaw then
    match lib.jsonMarshalSecret result with
    | (_, some _) => none
    | (rawJSON, none) =>
      match lib.jsonUnmarshal rawJSON GoMap.make with
      | (_, some _) => none
      | (data, none) => some data
  else
    some result.Data

/-- The same request with the `AllowEmptyResponse` flag set to `b`. -/
def withAllowEmptyResponse {P R : Type} (b : Bool) (res : VaultDynamicSecret P R) :
    VaultDynamicSecret P R :=
  ⟨⟨res.Spec.Method, res.Spec.Parameters, res.Spec.ResultType, res.Spec.RetrySettings,
    res.Spec.Provider, res.Spec.Path, b⟩⟩

/-! ## Concrete inputs -/

/-- A request for the path `creds/db` with a provider configuration. -/
def demoSpec (method : String) (parameters : Option JSON) (resultType : String)
    (allowEmpty : Bool) : VaultDynamicSecret Unit Unit :=
  ⟨⟨method, parameters, resultType, none, some (), "creds/db", allowEmpty⟩⟩

/-- Library functions that decode every payload to `spec` and every JSON text to `decoded`. -/
def demoCodec (spec : VaultDynamicSecret Unit Unit) (decoded : GoMap JSONValue × Option GoError) :
    Codec Unit Unit Unit Unit :=
  ⟨fun _ => (spec, none), fun _ _ => decoded, fun _ => ([], none), fun _ => ([], none)⟩

/-- A backend that gives the same answer to every call. -/
def demoClient (answer : Option (Secret Unit Unit) × Option GoError) : Client Unit Unit :=
  fun _ => answer

/-- A client factory that always hands out `cl`. -/
def demoFactory (cl : Client Unit Unit) : NewGeneratorClient Unit Unit Unit Unit :=
  fun _ _ _ => Except.ok cl

/-- The data `{"user":"u1","pass":"p1"}`. -/
def userPassData : GoMap JSONValue :=
  GoMap.table ((AList.singleton "pass" (JSONValue.string "p1")).insert "user"
    (JSONValue.string "u1"))

/-- The map `{"user": bytes("u1"), "pass": bytes("p1")}`. -/
def userPassBytes : GoMap Bytes :=
  GoMap.table ((AList.singleton "pass" (bytes "p1")).insert "user" (bytes "u1"))

/-- The data `{"a": {}, "b": {}}`, visited in the order `a`, `b`. -/
def twoObjectsAB : GoMap JSONValue :=
  GoMap.table ((AList.singleton "b" (JSONValue.object [])).insert "a" (JSONValue.object []))

/-- The data `{"ok": "v", "bad": {}}`, visited in the order `ok`, `bad`. -/
def okThenObject : GoMap JSONValue :=
  GoMap.table ((AList.singleton "bad" (JSONValue.object [])).insert "ok" (JSONValue.string "v"))

/-! ## The `Auth` example -/

/-- A Go map from its entries, the first entry being the first that `range` visits. -/
def GoMap.ofList {V : Type} (entries : List (String × V)) : GoMap V :=
  GoMap.table (entries.foldr (fun e t => t.insert e.1 e.2) ∅)

/-- The type `vault.SecretAuth` of the Vault API client, with its eleven fields; their JSON
names are `client_token`, `accessor`, `policies`, `token_policies`, `identity_policies`,
`metadata`, `orphan`, `entity_id`, `lease_duration`, `renewable` and `mfa_requirement`, none of
them omitted when empty.  A nil slice or map is `none`; what `MFARequirement` points to is kept
as a raw document. -/
structure SecretAuth where
  ClientToken : String
  Accessor : String
  Policies : Option (List String)
  TokenPolicies : Option (List String)
  IdentityPolicies : Option (List String)
  Metadata : Option (List (String × String))
  Orphan : Bool
  EntityID : String
  LeaseDuration : Int
  Renewable : Bool
  MFARequirement : Option JSON
  deriving DecidableEq

/-- The value `vault.SecretAuth{ClientToken: "abc"}`: every other field is zero. -/
def tokenAuth : SecretAuth :=
  ⟨"abc", "", none, none, none, none, false, "", 0, false, none⟩

/-- The text `json.Marshal` gives for `tokenAuth`: the eleven fields in declaration order. -/
def tokenAuthJSON : Bytes :=
  bytes ("\x7b\"client_token\":\"abc\",\"accessor\":\"\",\"policies\":null," ++
    "\"token_policies\":null,\"identity_policies\":null,\"metadata\":null," ++
    "\"orphan\":false,\"entity_id\":\"\",\"lease_duration\":0,\"renewable\":false," ++
    "\"mfa_requirement\":null\x7d")

/-- The document `json.Unmarshal` decodes from `tokenAuthJSON`: eleven keys. -/
def tokenAuthDocument : GoMap JSONValue :=
  GoMap.ofList [("client_token", JSONValue.string "abc"), ("accessor", JSONValue.string ""),
    ("policies", JSONValue.null), ("token_policies", JSONValue.null),
    ("identity_policies", JSONValue.null), ("metadata", JSONValue.null),
    ("orphan", JSONValue.bool false), ("entity_id", JSONValue.string ""),
    ("lease_duration", JSONValue.number "0"), ("renewable", JSONValue.bool false),
    ("mfa_requirement", JSONValue.null)]

/-- The flattening of `tokenAuthDocument`: the token, empty byte sequences for the empty
strings and the nulls, `false` for the two booleans and `0` for the lease duration. -/
def tokenAuthBytes : GoMap Bytes :=
  GoMap.ofList [("client_token", bytes "abc"), ("accessor", []), ("policies", []),
    ("token_policies", []), ("identity_policies", []), ("metadata", []),
    ("orphan", bytes "false"), ("entity_id", []), ("lease_duration", bytes "0"),
    ("renewable", bytes "false"), ("mfa_requirement", [])]

/-- The one-entry map `{"client_token": bytes("abc")}`. -/
def clientTokenOnly : GoMap Bytes :=
  GoMap.ofList [("client_token", bytes "abc")]

/-- A JSON codec that knows one encoding, that of `tokenAuth`, and rejects everything else. -/
def tokenAuthCodec : Codec Unit Unit SecretAuth Unit :=
  ⟨fun _ => (demoSpec "" none VaultDynamicSecretResultTypeAuth false, none),
    fun text m =>
      if text = tokenAuthJSON then (tokenAuthDocument, none)
      else (m, some (GoError.New "invalid character")),
    fun auth =>
      if auth = some tokenAuth then (tokenAuthJSON, none)
      else ([], some (GoError.New "unknown value")),
    fun _ => ([], some (GoError.New "unknown value"))⟩

/-! ## The conversion helper of `pkg/utils` -/

/-- The function `utils.GetByteValue` of the repository's `pkg/utils` (outside `vault.go`) on
decoded JSON values, with `json.Marshal` as the parameter `marshal`: a string gives its bytes,
a number its literal text, a boolean `true` or `false`, nil the empty byte sequence, and a
nested object or array is re-encoded by `json.Marshal`.  It differs from the conversion rule
of the spec (`GetByteValueFromMap` above) on nested objects and arrays only. -/
def GetByteValue (marshal : JSONValue → Bytes × Option GoError) :
    JSONValue → Bytes × Option GoError
  | JSONValue.string s => (bytes s, none)
  | JSONValue.object fields => marshal (JSONValue.object fields)
  | JSONValue.number n => (bytes n, none)
  | JSONValue.array items => marshal (JSONValue.array items)
  | JSONValue.bool b => (bytes (if b then "true" else "false"), none)
  | JSONValue.null => ([], none)

/-- The function `utils.GetByteValueFromMap` of `pkg/utils`: the error `errKeyNotFound` for a
key the map lacks, else `GetByteValue` of the value at the key. -/
def utilsGetByteValueFromMap (marshal : JSONValue → Bytes × Option GoError)
    (data : GoMap JSONValue) (key : String) : Bytes × Option GoError :=
  match data.index key with
  | none => ([], some (GoError.New "key not found"))
  | some v => GetByteValue marshal v

/-- The loop of `prepareResponse` (see `rangeLoop`) with the conversion helper `conv` as a
parameter. -/
def rangeLoopWith (conv : GoMap JSONValue → String → Bytes × Option GoError)
    (data : GoMap JSONValue) :
    List String → AList (fun _ : String => Bytes) →
      GoMap Bytes × GeneratorProviderState × Option GoError
  | [], response => (GoMap.table response, none, none)
  | k :: ks, response =>
    let (v, err) := conv data k
    let response := response.insert k v
    match err with
    | some e => (GoMap.nil, none, some e)
    | none => rangeLoopWith conv data ks response

/-- The method `prepareResponse` with the conversion helper `conv` as a parameter; with
`GetByteValueFromMap` for `conv` it is `prepareResponse` above. -/
def prepareResponseWith {P R A M : Type}
    (conv : GoMap JSONValue → String → Bytes × Option GoError) (lib : Codec P R A M)
    (res : VaultDynamicSecret P R) (result : Secret A M) :
    GoMap Bytes × GeneratorProviderState × Option GoError :=
  let data : GoMap JSONValue := GoMap.make
  let response : AList (fun _ : String => Bytes) := ∅
  if res.Spec.ResultType = VaultDynamicSecretResultTypeAuth then
    match lib.jsonMarshalAuth result.Auth with
    | (_, some err) => (GoMap.nil, none, some err)
    | (authJSON, none) =>
      match lib.jsonUnmarshal authJSON data with
      | (_, some err) => (GoMap.nil, none, some err)
      | (data, none) => rangeLoopWith conv data data.keys response
  else if res.Spec.ResultType = VaultDynamicSecretResultTypeRaw then
    match lib.jsonMarshalSecret result with
    | (_, some err) => (GoMap.nil, none, some err)
    | (rawJSON, none) =>
      match lib.jsonUnmarshal rawJSON data with
      | (_, some err) => (GoMap.nil, none, some err)
      | (data, none) => rangeLoopWith conv data data.keys response
  else
    rangeLoopWith conv result.Data result.Data.keys response

/-- The table the loop with helper `conv` has built once every key of `ks` is converted. -/
def insertedWith (conv : GoMap JSONValue → String → Bytes × Option GoError)
    (data : GoMap JSONValue) (ks : List String)
    (response : AList (fun _ : String => Bytes)) : AList (fun _ : String => Bytes) :=
  ks.foldl (fun t k => t.insert k (conv data k).1) response

/-- What `json.Marshal` gives for the values of the examples: the empty object is the text
`{}`, the empty array the text `[]`. -/
def emptyMarshal : JSONValue → Bytes × Option GoError
  | JSONValue.object [] => (bytes "\x7b\x7d", none)
  | JSONValue.array [] => (bytes "[]", none)
  | _ => ([], some (GoError.New "not among the examples"))

/-! ## Maps and the conversion rule -/

section Lemmas

variable {P R A M : Type}

theorem GoMap.mem_keys_iff {V : Type} (m : GoMap V) (k : String) :
    k ∈ m.keys ↔ (m.index k).isSome = true := by
  cases m with
  | nil => simp [GoMap.keys, GoMap.index]
  | table t => simp only [GoMap.keys, GoMap.index, AList.lookup_isSome, AList.mem_keys]

theorem GoMap.index_table {V : Type} (t : AList (fun _ : String => V)) (k : String) :
    (GoMap.table t).index k = t.lookup k := rfl

theorem GetByteValueFromMap_string {data : GoMap JSONValue} {k s : String}
    (h : data.index k = some (JSONValue.string s)) :
    GetByteValueFromMap data k = (bytes s, none) := by
  simp [GetByteValueFromMap, h]

theorem lookup_inserted (data : GoMap JSONValue) (j : String) :
    ∀ (ks : List String) (response : AList (fun _ : String => Bytes)),
      (inserted data ks response).lookup j =
        if j ∈ ks then some (GetByteValueFromMap data j).1 else response.lookup j := by
  intro ks
  induction ks with
  | nil => intro response; simp [inserted]
  | cons k ks ih =>
    intro response
    have hstep : inserted data (k :: ks) response
        = inserted data ks (response.insert k (GetByteValueFromMap data k).1) := rfl
    rw [hstep, ih]
    by_cases hj : j ∈ ks
    · simp [hj]
    · by_cases hk : j = k
      · subst hk; simp [hj, AList.lookup_insert]
      · simp [hj, hk, AList.lookup_insert_ne hk]

theorem rangeLoop_ok (data : GoMap JSONValue) :
    ∀ (ks : List String) (response : AList (fun _ : String => Bytes)),
      (∀ k ∈ ks, (GetByteValueFromMap data k).2 = none) →
      rangeLoop data ks response = (GoMap.table (inserted data ks response), none, none) := by
  intro ks
  induction ks with
  | nil => intro response _; rfl
  | cons k ks ih =>
    intro response h
    have hk : (GetByteValueFromMap data k).2 = none := h k (List.mem_cons_self _ _)
    have hrest : ∀ j ∈ ks, (GetByteValueFromMap data j).2 = none :=
      fun j hj => h j (List.mem_cons_of_mem _ hj)
    simp only [rangeLoop, hk]
    exact ih _ hrest

theorem rangeLoop_err (data : GoMap JSONValue) :
    ∀ (ks : List String) (response : AList (fun _ : String => Bytes)),
      (rangeLoop data ks response).2.2 ≠ none →
      (rangeLoop data ks response).1 = GoMap.nil ∧ (rangeLoop data ks response).2.1 = none := by
  intro ks
  induction ks with
  | nil => intro response h; simp [rangeLoop] at h
  | cons k ks ih =>
    intro response h
    cases hk : (GetByteValueFromMap data k).2 with
    | none =>
      simp only [rangeLoop, hk] at h ⊢
      exact ih _ h
    | some e => simp only [rangeLoop, hk, and_self]

theorem fetchVaultSecret_of_log (lib : Codec P R A M) (res : VaultDynamicSecret P R)
    (cl : Client A M) (call : BackendCall) (h : (fetchVaultSecret lib res cl).2 = [call]) :
    fetchVaultSecret lib res cl = (cl call, [call]) := by
  unfold fetchVaultSecret at h ⊢
  split
  · rename_i hm; simp only [hm, if_true, issue] at h; simp [issue, ← List.singleton_inj.mp h]
  · split
    · rename_i hm hl; simp only [hm, hl, if_true, if_false, issue] at h
      simp [issue, ← List.singleton_inj.mp h]
    · split
      · rename_i hm hl hd; simp only [hm, hl, hd, if_true, if_false, issue] at h
        simp [issue, ← List.singleton_inj.mp h]
      · rename_i hm hl hd
        simp only [hm, hl, hd, if_false] at h
        split at h
        · split at h
          · simp at h
          · rename_i heq; simp [issue, heq] at h ⊢; simp [h]
        · simp [issue] at h ⊢; simp [h]

theorem prepareResponse_of_source (lib : Codec P R A M) (res : VaultDynamicSecret P R)
    (result : Secret A M) (data : GoMap JSONValue) (h : sourceData lib res result = some data) :
    prepareResponse lib res result = rangeLoop data data.keys ∅ := by
  unfold sourceData at h
  unfold prepareResponse
  by_cases ha : res.Spec.ResultType = VaultDynamicSecretResultTypeAuth
  · rw [if_pos ha] at h ⊢
    split at h
    · simp at h
    · rename_i hm
      split at h
      · simp at h
      · rename_i hu
        simp only [Option.some.injEq] at h
        subst h
        simp [hm, hu]
  · rw [if_neg ha] at h ⊢
    by_cases hr : res.Spec.ResultType = VaultDynamicSecretResultTypeRaw
    · rw [if_pos hr] at h ⊢
      split at h
      · simp at h
      · rename_i hm
        split at h
        · simp at h
        · rename_i hu
          simp only [Option.some.injEq] at h
          subst h
          simp [hm, hu]
    · rw [if_neg hr] at h ⊢
      simp only [Option.some.injEq] at h
      subst h
      rfl

theorem prepareResponse_flatten (lib : Codec P R A M) (res : VaultDynamicSecret P R)
    (result : Secret A M) (data : GoMap JSONValue)
    (hsel : sourceData lib res result = some data)
    (hconv : ∀ k ∈ data.keys, (GetByteValueFromMap data k).2 = none) :
    prepareResponse lib res result = (GoMap.table (inserted data data.keys ∅), none, none) := by
  rw [prepareResponse_of_source lib res result data hsel]
  exact rangeLoop_ok _ _ _ hconv

theorem sourceData_auth (lib : Codec P R A M) (res : VaultDynamicSecret P R)
    (result : Secret A M) (text : Bytes) (doc : GoMap JSONValue)
    (ha : res.Spec.ResultType = VaultDynamicSecretResultTypeAuth)
    (hm : lib.jsonMarshalAuth result.Auth = (text, none))
    (hu : lib.jsonUnmarshal text GoMap.make = (doc, none)) :
    sourceData lib res result = some doc := by
  simp only [sourceData, if_pos ha, hm, hu]

theorem GetByteValueFromMap_congr {data data2 : GoMap JSONValue} {k : String}
    (h : data.index k = data2.index k) :
    GetByteValueFromMap data k = GetByteValueFromMap data2 k := by
  unfold GetByteValueFromMap
  rw [h]

theorem GoMap.index_eq_none_of_not_mem {V : Type} (m : GoMap V) (k : String)
    (h : k ∉ m.keys) : m.index k = none := by
  rw [GoMap.mem_keys_iff] at h
  cases hi : m.index k with
  | none => rfl
  | some v => rw [hi] at h; simp at h

theorem GoMap.keys_nodup {V : Type} (m : GoMap V) : m.keys.Nodup := by
  cases m with
  | nil => exact List.nodup_nil
  | table t => exact t.keys_nodup

theorem GoMap.len_eq_of_index {V W : Type} (m : GoMap V) (n : GoMap W)
    (h : ∀ k, (m.index k).isSome = (n.index k).isSome) : m.len = n.len := by
  unfold GoMap.len
  apply List.Perm.length_eq
  rw [List.perm_ext_iff_of_nodup m.keys_nodup n.keys_nodup]
  intro k
  rw [GoMap.mem_keys_iff, GoMap.mem_keys_iff, h]

theorem tokenAuthDocument_keys :
    tokenAuthDocument.keys = ["client_token", "accessor", "policies", "token_policies",
      "identity_policies", "metadata", "orphan", "entity_id", "lease_duration", "renewable",
      "mfa_requirement"] := by
  rfl

theorem tokenAuthBytes_keys : tokenAuthBytes.keys = tokenAuthDocument.keys := by
  rfl

theorem tokenAuthDocument_converts :
    ∀ k ∈ tokenAuthDocument.keys, GetByteValueFromMap tokenAuthDocument k =
      ((tokenAuthBytes.index k).getD [], none) := by
  intro k hk
  rw [tokenAuthDocument_keys] at hk
  simp only [List.mem_cons, List.mem_singleton, List.not_mem_nil, or_false] at hk
  rcases hk with h | h | h | h | h | h | h | h | h | h | h <;> subst h <;> rfl

theorem tokenAuthBytes_index_of_mem :
    ∀ k ∈ tokenAuthDocument.keys, tokenAuthBytes.index k =
      some (GetByteValueFromMap tokenAuthDocument k).1 := by
  intro k hk
  rw [tokenAuthDocument_keys] at hk
  simp only [List.mem_cons, List.mem_singleton, List.not_mem_nil, or_false] at hk
  rcases hk with h | h | h | h | h | h | h | h | h | h | h <;> subst h <;> rfl

theorem tokenAuthCodec_marshal :
    tokenAuthCodec.jsonMarshalAuth (some tokenAuth) = (tokenAuthJSON, none) := by
  dsimp only [tokenAuthCodec]
  exact if_pos rfl

theorem tokenAuthCodec_decode :
    tokenAuthCodec.jsonUnmarshal tokenAuthJSON GoMap.make = (tokenAuthDocument, none) := by
  dsimp only [tokenAuthCodec]
  exact if_pos rfl

theorem lookup_insertedWith (conv : GoMap JSONValue → String → Bytes × Option GoError)
    (data : GoMap JSONValue) (j : String) :
    ∀ (ks : List String) (response : AList (fun _ : String => Bytes)),
      (insertedWith conv data ks response).lookup j =
        if j ∈ ks then some (conv data j).1 else response.lookup j := by
  intro ks
  induction ks with
  | nil => intro response; simp [insertedWith]
  | cons k ks ih =>
    intro response
    have hstep : insertedWith conv data (k :: ks) response
        = insertedWith conv data ks (response.insert k (conv data k).1) := rfl
    rw [hstep, ih]
    by_cases hj : j ∈ ks
    · simp [hj]
    · by_cases hk : j = k
      · subst hk; simp [hj, AList.lookup_insert]
      · simp [hj, hk, AList.lookup_insert_ne hk]

theorem rangeLoopWith_ok (conv : GoMap JSONValue → String → Bytes × Option GoError)
    (data : GoMap JSONValue) :
    ∀ (ks : List String) (response : AList (fun _ : String => Bytes)),
      (∀ k ∈ ks, (conv data k).2 = none) →
      rangeLoopWith conv data ks response =
        (GoMap.table (insertedWith conv data ks response), none, none) := by
  intro ks
  induction ks with
  | nil => intro response _; rfl
  | cons k ks ih =>
    intro response h
    have hk : (conv data k).2 = none := h k (List.mem_cons_self _ _)
    have hrest : ∀ j ∈ ks, (conv data j).2 = none :=
      fun j hj => h j (List.mem_cons_of_mem _ hj)
    simp only [rangeLoopWith, hk]
    exact ih _ hrest

theorem prepareResponseWith_of_source
    (conv : GoMap JSONValue → String → Bytes × Option GoError) (lib : Codec P R A M)
    (res : VaultDynamicSecret P R) (result : Secret A M) (data : GoMap JSONValue)
    (h : sourceData lib res result = some data) :
    prepareResponseWith conv lib res result = rangeLoopWith conv data data.keys ∅ := by
  unfold sourceData at h
  unfold prepareResponseWith
  by_cases ha : res.Spec.ResultType = VaultDynamicSecretResultTypeAuth
  · rw [if_pos ha] at h ⊢
    split at h
    · simp at h
    · rename_i hm
      split at h
      · simp at h
      · rename_i hu
        simp only [Option.some.injEq] at h
        subst h
        simp [hm, hu]
  · rw [if_neg ha] at h ⊢
    by_cases hr : res.Spec.ResultType = VaultDynamicSecretResultTypeRaw
    · rw [if_pos hr] at h ⊢
      split at h
      · simp at h
      · rename_i hm
        split at h
        · simp at h
        · rename_i hu
          simp only [Option.some.injEq] at h
          subst h
          simp [hm, hu]
    · rw [if_neg hr] at h ⊢
      simp only [Option.some.injEq] at h
      subst h
      rfl

theorem prepareResponse_eq_with (lib : Codec P R A M) (res : VaultDynamicSecret P R)
    (result : Secret A M) :
    prepareResponseWith GetByteValueFromMap lib res result = prepareResponse lib res result := by
  have hloop : ∀ (data : GoMap JSONValue) (ks : List String)
      (response : AList (fun _ : String => Bytes)),
      rangeLoopWith GetByteValueFromMap data ks response = rangeLoop data ks response := by
    intro data ks
    induction ks with
    | nil => intro response; rfl
    | cons k ks ih =>
      intro response
      simp only [rangeLoopWith, rangeLoop, ih]
  unfold prepareResponseWith prepareResponse
  simp only [hloop]

end Lemmas

/-! ## Dispatch of the backend call -/

section Dispatch

variable {P R A M : Type}

/-- C1: `fetchVaultSecret` issues exactly one backend call, chosen by exact comparison of the
method string: the empty string and `GET` read the path with no body, `LIST` lists it, `DELETE`
deletes it, and every other method writes to the path the document decoded from the
parameters, which is the empty document when there are no parameters.  In each case the log
holds that one call and the returned pair is the answer to it. -/
theorem fetchVaultSecret_dispatch (lib : Codec P R A M) (res : VaultDynamicSecret P R)
    (cl : Client A M) :
    ((res.Spec.Method = "" ∨ res.Spec.Method = "GET") →
      fetchVaultSecret lib res cl =
        (cl (BackendCall.ReadWithDataWithContext res.Spec.Path GoMap.nil),
          [BackendCall.ReadWithDataWithContext res.Spec.Path GoMap.nil])) ∧
    (res.Spec.Method = "LIST" →
      fetchVaultSecret lib res cl =
        (cl (BackendCall.ListWithContext res.Spec.Path),
          [BackendCall.ListWithContext res.Spec.Path])) ∧
    (res.Spec.Method = "DELETE" →
      fetchVaultSecret lib res cl =
        (cl (BackendCall.DeleteWithContext res.Spec.Path),
          [BackendCall.DeleteWithContext res.Spec.Path])) ∧
    (res.Spec.Method ≠ "" → res.Spec.Method ≠ "GET" → res.Spec.Method ≠ "LIST" →
      res.Spec.Method ≠ "DELETE" →
      (res.Spec.Parameters = none →
        fetchVaultSecret lib res cl =
          (cl (BackendCall.WriteWithContext res.Spec.Path GoMap.make),
            [BackendCall.WriteWithContext res.Spec.Path GoMap.make])) ∧
      (∀ (parameters : JSON) (doc : GoMap JSONValue),
        res.Spec.Parameters = some parameters →
        lib.jsonUnmarshal parameters.Raw GoMap.make = (doc, none) →
        fetchVaultSecret lib res cl =
          (cl (BackendCall.WriteWithContext res.Spec.Path doc),
            [BackendCall.WriteWithContext res.Spec.Path doc]))) := by
  refine ⟨?_, ?_, ?_, ?_⟩
  · intro h
    simp only [fetchVaultSecret, if_pos h, issue]
  · intro h
    have h1 : ¬ (res.Spec.Method = "" ∨ res.Spec.Method = "GET") := by rw [h]; decide
    simp only [fetchVaultSecret, if_neg h1, if_pos h, issue]
  · intro h
    have h1 : ¬ (res.Spec.Method = "" ∨ res.Spec.Method = "GET") := by rw [h]; decide
    have h2 : ¬ res.Spec.Method = "LIST" := by rw [h]; decide
    simp only [fetchVaultSecret, if_neg h1, if_neg h2, if_pos h, issue]
  · intro h0 h1 h2 h3
    have h01 : ¬ (res.Spec.Method = "" ∨ res.Spec.Method = "GET") := by
      rintro (h | h)
      · exact h0 h
      · exact h1 h
    refine ⟨?_, ?_⟩
    · intro hp
      simp only [fetchVaultSecret, if_neg h01, if_neg h2, if_neg h3, hp, issue]
    · intro parameters doc hp hdoc
      simp only [fetchVaultSecret, if_neg h01, if_neg h2, if_neg h3, hp, hdoc, issue]

/-- A lower-case `get` with no parameters writes the empty document to the path. -/
theorem fetchVaultSecret_dispatch_witness :
    ("get" ≠ "" ∧ "get" ≠ "GET" ∧ "get" ≠ "LIST" ∧ "get" ≠ "DELETE") ∧
    fetchVaultSecret (demoCodec (demoSpec "get" none "" false) (GoMap.nil, none))
        (demoSpec "get" none "" false) (demoClient (none, none)) =
      ((none, none), [BackendCall.WriteWithContext "creds/db" GoMap.make]) :=
  ⟨by decide,
    ((fetchVaultSecret_dispatch (demoCodec (demoSpec "get" none "" false) (GoMap.nil, none))
      (demoSpec "get" none "" false) (demoClient (none, none))).2.2.2
      (by decide) (by decide) (by decide) (by decide)).1 rfl⟩

/-- C5: for a write method whose parameters are present and fail to decode, `fetchVaultSecret`
returns no result and the decode error, and issues no backend call. -/
theorem fetchVaultSecret_decode_error (lib : Codec P R A M) (res : VaultDynamicSecret P R)
    (cl : Client A M) (parameters : JSON) (partly : GoMap JSONValue) (e : GoError)
    (h0 : res.Spec.Method ≠ "") (h1 : res.Spec.Method ≠ "GET") (h2 : res.Spec.Method ≠ "LIST")
    (h3 : res.Spec.Method ≠ "DELETE") (hp : res.Spec.Parameters = some parameters)
    (hdec : lib.jsonUnmarshal parameters.Raw GoMap.make = (partly, some e)) :
    fetchVaultSecret lib res cl = ((none, some e), []) := by
  have h01 : ¬ (res.Spec.Method = "" ∨ res.Spec.Method = "GET") := by
    rintro (h | h)
    · exact h0 h
    · exact h1 h
  simp only [fetchVaultSecret, if_neg h01, if_neg h2, if_neg h3, hp, hdec]

/-- A `POST` whose parameters do not decode reaches no backend, even one that would answer. -/
theorem fetchVaultSecret_decode_error_witness :
    fetchVaultSecret
        (demoCodec (demoSpec "POST" (some ⟨[123]⟩) "" false)
          (GoMap.make, some (GoError.New "unexpected end of JSON input")))
        (demoSpec "POST" (some ⟨[123]⟩) "" false)
        (demoClient (some ⟨GoMap.make, none, ()⟩, none)) =
      ((none, some (GoError.New "unexpected end of JSON input")), []) :=
  fetchVaultSecret_decode_error _ _ _ ⟨[123]⟩ GoMap.make _
    (by decide) (by decide) (by decide) (by decide) rfl rfl

end Dispatch

/-! ## Orchestration -/

section Orchestration

variable {P R A M : Type}

/-- C2: when the one backend call that `generate` issues answers with an error `e`, `generate`
returns exactly `e`, with a nil map and a nil state, whatever result came with the error and
whatever `AllowEmptyResponse` and the result type are; the outcome does not go through
`prepareResponse`. -/
theorem generate_call_error (lib : Codec P R A M) (c : NewGeneratorClient P R A M) (js : JSON)
    (ns : String) (spec : VaultDynamicSecret P R) (provider : P) (cl : Client A M)
    (call : BackendCall) (r : Option (Secret A M)) (e : GoError)
    (hjs : lib.yamlUnmarshal js.Raw = (spec, none))
    (hprov : spec.Spec.Provider = some provider)
    (hcl : c provider ns spec.Spec.RetrySettings = Except.ok cl)
    (hlog : (fetchVaultSecret lib spec cl).2 = [call])
    (hans : cl call = (r, some e)) :
    generate lib c (some js) ns = ((GoMap.nil, none, some e), [call]) := by
  have hf := fetchVaultSecret_of_log lib spec cl call hlog
  rw [hans] at hf
  simp only [generate, parseSpec, hjs, hprov, hcl, hf]

/-- A read that answers with both a result and an error: only the error comes back, although
the result alone would have been flattened to a map. -/
theorem generate_call_error_witness :
    generate (demoCodec (demoSpec "GET" none "" true) (GoMap.nil, none))
        (demoFactory
          (demoClient (some ⟨userPassData, none, ()⟩, some (GoError.New "permission denied"))))
        (some ⟨[]⟩) "default" =
      ((GoMap.nil, none, some (GoError.New "permission denied")),
        [BackendCall.ReadWithDataWithContext "creds/db" GoMap.nil]) :=
  generate_call_error _ _ ⟨[]⟩ "default" (demoSpec "GET" none "" true) () _
    (BackendCall.ReadWithDataWithContext "creds/db" GoMap.nil) _ _ rfl rfl rfl rfl rfl

/-- C3: with `AllowEmptyResponse` set, a backend call that succeeds with a nil result makes
`generate` return no error and a map without entries (the value returned is the nil map, whose
length is zero and which holds no key). -/
theorem generate_empty_allowed (lib : Codec P R A M) (c : NewGeneratorClient P R A M) (js : JSON)
    (ns : String) (spec : VaultDynamicSecret P R) (provider : P) (cl : Client A M)
    (call : BackendCall)
    (hjs : lib.yamlUnmarshal js.Raw = (spec, none))
    (hprov : spec.Spec.Provider = some provider)
    (hcl : c provider ns spec.Spec.RetrySettings = Except.ok cl)
    (hlog : (fetchVaultSecret lib spec cl).2 = [call])
    (hans : cl call = (none, none))
    (hallow : spec.Spec.AllowEmptyResponse = true) :
    generate lib c (some js) ns = ((GoMap.nil, none, none), [call]) ∧
    (generate lib c (some js) ns).1.2.2 = none ∧
    (generate lib c (some js) ns).1.1.len = 0 ∧
    ∀ k, (generate lib c (some js) ns).1.1.index k = none := by
  have hf := fetchVaultSecret_of_log lib spec cl call hlog
  rw [hans] at hf
  have hg : generate lib c (some js) ns = ((GoMap.nil, none, none), [call]) := by
    simp only [generate, parseSpec, hjs, hprov, hcl, hf, hallow, if_true]
  rw [hg]
  exact ⟨rfl, rfl, rfl, fun _ => rfl⟩

/-- A delete that answers nothing, with empty responses allowed. -/
theorem generate_empty_allowed_witness :
    (generate (demoCodec (demoSpec "DELETE" none "" true) (GoMap.nil, none))
        (demoFactory (demoClient (none, none))) (some ⟨[]⟩) "default").1 =
      (GoMap.nil, none, none) :=
  congrArg Prod.fst
    (generate_empty_allowed (demoCodec (demoSpec "DELETE" none "" true) (GoMap.nil, none))
      (demoFactory (demoClient (none, none))) ⟨[]⟩ "default" (demoSpec "DELETE" none "" true) ()
      (demoClient (none, none)) (BackendCall.DeleteWithContext "creds/db")
      rfl rfl rfl rfl rfl rfl).1

/-- C4: without `AllowEmptyResponse`, a backend call that succeeds with a nil result makes
`generate` fail with the error `fmt.Errorf(errGetSecret, errors.New("empty response from
Vault"))`, whose text is `unable to get dynamic secret: empty response from Vault`, and return
the nil map. -/
theorem generate_empty_rejected (lib : Codec P R A M) (c : NewGeneratorClient P R A M)
    (js : JSON) (ns : String) (spec : VaultDynamicSecret P R) (provider : P) (cl : Client A M)
    (call : BackendCall)
    (hjs : lib.yamlUnmarshal js.Raw = (spec, none))
    (hprov : spec.Spec.Provider = some provider)
    (hcl : c provider ns spec.Spec.RetrySettings = Except.ok cl)
    (hlog : (fetchVaultSecret lib spec cl).2 = [call])
    (hans : cl call = (none, none))
    (hallow : spec.Spec.AllowEmptyResponse = false) :
    generate lib c (some js) ns =
      ((GoMap.nil, none,
        some (GoError.Errorf errGetSecret (GoError.New "empty response from Vault"))), [call]) ∧
    String.mk (sprintfW errGetSecret.data "empty response from Vault".data) =
      "unable to get dynamic secret: empty response from Vault" := by
  have hf := fetchVaultSecret_of_log lib spec cl call hlog
  rw [hans] at hf
  refine ⟨?_, by decide⟩
  simp [generate, parseSpec, hjs, hprov, hcl, hf, hallow]

/-- A list that answers nothing, with empty responses not allowed. -/
theorem generate_empty_rejected_witness :
    (generate (demoCodec (demoSpec "LIST" none "" false) (GoMap.nil, none))
        (demoFactory (demoClient (none, none))) (some ⟨[]⟩) "default").1 =
      (GoMap.nil, none,
        some (GoError.Errorf errGetSecret (GoError.New "empty response from Vault"))) :=
  congrArg Prod.fst
    (generate_empty_rejected (demoCodec (demoSpec "LIST" none "" false) (GoMap.nil, none))
      (demoFactory (demoClient (none, none))) ⟨[]⟩ "default" (demoSpec "LIST" none "" false) ()
      (demoClient (none, none)) (BackendCall.ListWithContext "creds/db")
      rfl rfl rfl rfl rfl rfl).1

/-- C10: after a successful backend call with a non-nil result `r`, the outcome of `generate`
is that of `prepareResponse` on the parsed request and `r`, which is the same for either value
of `AllowEmptyResponse`; in particular, when the selected source data has no entries (a result
whose `Data` is empty, under the default result type) the outcome is an allocated map without
entries and no error, also when `AllowEmptyResponse` is false. -/
theorem generate_result_normalized (lib : Codec P R A M) (c : NewGeneratorClient P R A M)
    (js : JSON) (ns : String) (spec : VaultDynamicSecret P R) (b : Bool) (provider : P)
    (cl : Client A M) (call : BackendCall) (r : Secret A M)
    (hjs : lib.yamlUnmarshal js.Raw = (withAllowEmptyResponse b spec, none))
    (hprov : spec.Spec.Provider = some provider)
    (hcl : c provider ns spec.Spec.RetrySettings = Except.ok cl)
    (hlog : (fetchVaultSecret lib spec cl).2 = [call])
    (hans : cl call = (some r, none)) :
    generate lib c (some js) ns =
      (prepareResponse lib (withAllowEmptyResponse b spec) r, [call]) ∧
    (∀ b2,
      prepareResponse lib (withAllowEmptyResponse b2 spec) r = prepareResponse lib spec r) ∧
    (∀ data, sourceData lib spec r = some data → data.len = 0 →
      generate lib c (some js) ns = ((GoMap.make, none, none), [call]) ∧
      (generate lib c (some js) ns).1.1.len = 0) ∧
    (spec.Spec.ResultType ≠ VaultDynamicSecretResultTypeAuth →
      spec.Spec.ResultType ≠ VaultDynamicSecretResultTypeRaw → r.Data.len = 0 →
      generate lib c (some js) ns = ((GoMap.make, none, none), [call])) := by
  have hf := fetchVaultSecret_of_log lib spec cl call hlog
  rw [hans] at hf
  have hf2 : fetchVaultSecret lib (withAllowEmptyResponse b spec) cl
      = ((some r, none), [call]) := hf
  have hprov2 : (withAllowEmptyResponse b spec).Spec.Provider = some provider := hprov
  have hcl2 : c provider ns (withAllowEmptyResponse b spec).Spec.RetrySettings = Except.ok cl :=
    hcl
  have hg : generate lib c (some js) ns
      = (prepareResponse lib (withAllowEmptyResponse b spec) r, [call]) := by
    simp only [generate, parseSpec, hjs, hprov2, hcl2, hf2]
  have hprep : ∀ b2, prepareResponse lib (withAllowEmptyResponse b2 spec) r
      = prepareResponse lib spec r := fun _ => rfl
  have hempty : ∀ data, sourceData lib spec r = some data → data.len = 0 →
      generate lib c (some js) ns = ((GoMap.make, none, none), [call]) := by
    intro data hsel hlen
    have hkeys : data.keys = [] := List.length_eq_zero.mp hlen
    rw [hg, hprep b, prepareResponse_of_source lib spec r data hsel, hkeys]
    rfl
  refine ⟨hg, hprep, ?_, ?_⟩
  · intro data hsel hlen
    have h := hempty data hsel hlen
    rw [h]
    exact ⟨rfl, rfl⟩
  · intro ha hr hlen
    refine hempty r.Data ?_ hlen
    simp only [sourceData, if_neg ha, if_neg hr]

/-- A list that answers with a result without entries, with empty responses not allowed: an
empty map and no error. -/
theorem generate_result_normalized_witness :
    generate (demoCodec (demoSpec "LIST" none "" false) (GoMap.nil, none))
        (demoFactory (demoClient (some ⟨GoMap.make, none, ()⟩, none))) (some ⟨[]⟩)
        "default" =
      ((GoMap.make, none, none), [BackendCall.ListWithContext "creds/db"]) :=
  (generate_result_normalized (demoCodec (demoSpec "LIST" none "" false) (GoMap.nil, none))
    (demoFactory (demoClient (some ⟨GoMap.make, none, ()⟩, none))) ⟨[]⟩ "default"
    (demoSpec "LIST" none "" false) false () (demoClient (some ⟨GoMap.make, none, ()⟩, none))
    (BackendCall.ListWithContext "creds/db") ⟨GoMap.make, none, ()⟩
    rfl rfl rfl rfl rfl).2.2.2 (by decide) (by decide) rfl

/-- C9: whenever `generate`, and likewise `prepareResponse`, returns a non-nil error, the map
it returns is nil (and so is the state): nothing built before the failure comes back. -/
theorem error_returns_nil_map (lib : Codec P R A M) (c : NewGeneratorClient P R A M)
    (jsonSpec : Option JSON) (ns : String) (res : VaultDynamicSecret P R) (result : Secret A M) :
    ((generate lib c jsonSpec ns).1.2.2 ≠ none →
      (generate lib c jsonSpec ns).1.1 = GoMap.nil ∧
        (generate lib c jsonSpec ns).1.2.1 = none) ∧
    ((prepareResponse lib res result).2.2 ≠ none →
      (prepareResponse lib res result).1 = GoMap.nil ∧
        (prepareResponse lib res result).2.1 = none) := by
  have hprep : ∀ (res : VaultDynamicSecret P R) (result : Secret A M),
      (prepareResponse lib res result).2.2 ≠ none →
      (prepareResponse lib res result).1 = GoMap.nil ∧
        (prepareResponse lib res result).2.1 = none := by
    intro res result
    have key : ∀ x, prepareResponse lib res result = x → x.2.2 ≠ none →
        x.1 = GoMap.nil ∧ x.2.1 = none := by
      intro x hx
      unfold prepareResponse at hx
      dsimp only at hx
      split at hx
      · split at hx
        · subst hx; intro _; exact ⟨rfl, rfl⟩
        · split at hx
          · subst hx; intro _; exact ⟨rfl, rfl⟩
          · subst hx; exact rangeLoop_err _ _ _
      · split at hx
        · split at hx
          · subst hx; intro _; exact ⟨rfl, rfl⟩
          · split at hx
            · subst hx; intro _; exact ⟨rfl, rfl⟩
            · subst hx; exact rangeLoop_err _ _ _
        · subst hx; exact rangeLoop_err _ _ _
    exact key _ rfl
  refine ⟨?_, hprep res result⟩
  have key : ∀ x, generate lib c jsonSpec ns = x → x.1.2.2 ≠ none →
      x.1.1 = GoMap.nil ∧ x.1.2.1 = none := by
    intro x hx
    unfold generate at hx
    split at hx
    · subst hx; intro _; exact ⟨rfl, rfl⟩
    · split at hx
      · subst hx; intro _; exact ⟨rfl, rfl⟩
      · subst hx; intro _; exact ⟨rfl, rfl⟩
      · split at hx
        · subst hx; intro _; exact ⟨rfl, rfl⟩
        · split at hx
          · subst hx; intro _; exact ⟨rfl, rfl⟩
          · split at hx
            · subst hx; intro _; exact ⟨rfl, rfl⟩
            · split at hx
              · subst hx; intro _; exact ⟨rfl, rfl⟩
              · subst hx; intro _; exact ⟨rfl, rfl⟩
            · subst hx; exact hprep _ _
  exact key _ rfl

/-- A payload that is absent, and a response whose first key converts and whose second does
not: in both cases the error comes with the nil map. -/
theorem error_returns_nil_map_witness :
    (generate (demoCodec (demoSpec "" none "" false) (GoMap.nil, none))
        (demoFactory (demoClient (none, none))) none "default").1.1 = GoMap.nil ∧
    (prepareResponse (demoCodec (demoSpec "" none "" false) (GoMap.nil, none))
        (demoSpec "" none "" false) ⟨okThenObject, none, ()⟩).1 = GoMap.nil :=
  ⟨((error_returns_nil_map (demoCodec (demoSpec "" none "" false) (GoMap.nil, none))
      (demoFactory (demoClient (none, none))) none "default"
      (demoSpec "" none "" false) ⟨okThenObject, none, ()⟩).1 (by decide)).1,
    ((error_returns_nil_map (demoCodec (demoSpec "" none "" false) (GoMap.nil, none))
      (demoFactory (demoClient (none, none))) none "default"
      (demoSpec "" none "" false) ⟨okThenObject, none, ()⟩).2 (by decide)).1⟩

end Orchestration

/-! ## Normalization -/

section Normalization

variable {P R A M : Type}

theorem userPassData_index (k : String) :
    userPassData.index k =
      if k = "user" then some (JSONValue.string "u1")
      else if k = "pass" then some (JSONValue.string "p1") else none := by
  unfold userPassData
  rw [GoMap.index_table]
  by_cases h1 : k = "user"
  · subst h1; simp [AList.lookup_insert]
  · rw [AList.lookup_insert_ne h1, if_neg h1]
    by_cases h2 : k = "pass"
    · subst h2; simp [AList.singleton, AList.lookup, List.dlookup]
    · rw [if_neg h2]
      have h3 : ¬ "pass" = k := fun h => h2 h.symm
      simp [AList.singleton, AList.lookup, List.dlookup, h3]

theorem userPassBytes_index (k : String) :
    userPassBytes.index k =
      if k = "user" then some (bytes "u1")
      else if k = "pass" then some (bytes "p1") else none := by
  unfold userPassBytes
  rw [GoMap.index_table]
  by_cases h1 : k = "user"
  · subst h1; simp [AList.lookup_insert]
  · rw [AList.lookup_insert_ne h1, if_neg h1]
    by_cases h2 : k = "pass"
    · subst h2; simp [AList.singleton, AList.lookup, List.dlookup]
    · rw [if_neg h2]
      have h3 : ¬ "pass" = k := fun h => h2 h.symm
      simp [AList.singleton, AList.lookup, List.dlookup, h3]

theorem prepareResponse_default (lib : Codec P R A M) (res : VaultDynamicSecret P R)
    (result : Secret A M) (ha : res.Spec.ResultType ≠ VaultDynamicSecretResultTypeAuth)
    (hr : res.Spec.ResultType ≠ VaultDynamicSecretResultTypeRaw) :
    prepareResponse lib res result = rangeLoop result.Data result.Data.keys ∅ := by
  unfold prepareResponse
  rw [if_neg ha, if_neg hr]

/-- C6: for a result type other than `Auth` and `Raw` (the default, `Data`) and a non-nil
response, `prepareResponse` does not use the codec at all (no re-encoding); if every value of
`result.Data` converts, it succeeds with a map whose keys are exactly the keys of `result.Data`
and whose value at each key is the byte conversion of the data at that key; and for the data
`{"user":"u1","pass":"p1"}`, in whatever order, it returns the map with `user` at `bytes("u1")`
and `pass` at `bytes("p1")` and nothing else. -/
theorem prepareResponse_data (lib : Codec P R A M) (res : VaultDynamicSecret P R)
    (result : Secret A M) (ha : res.Spec.ResultType ≠ VaultDynamicSecretResultTypeAuth)
    (hr : res.Spec.ResultType ≠ VaultDynamicSecretResultTypeRaw) :
    (∀ lib2 : Codec P R A M, prepareResponse lib2 res result = prepareResponse lib res result) ∧
    ((∀ k ∈ result.Data.keys, (GetByteValueFromMap result.Data k).2 = none) →
      ∃ t, prepareResponse lib res result = (GoMap.table t, none, none) ∧
        (∀ k, k ∈ t.keys ↔ k ∈ result.Data.keys) ∧
        (∀ k ∈ result.Data.keys, t.lookup k = some (GetByteValueFromMap result.Data k).1)) ∧
    ((∀ k, result.Data.index k = userPassData.index k) →
      ∃ t, prepareResponse lib res result = (GoMap.table t, none, none) ∧
        ∀ k, (GoMap.table t).index k = userPassBytes.index k) := by
  have hgen : (∀ k ∈ result.Data.keys, (GetByteValueFromMap result.Data k).2 = none) →
      prepareResponse lib res result
        = (GoMap.table (inserted result.Data result.Data.keys ∅), none, none) := by
    intro hconv
    rw [prepareResponse_default lib res result ha hr]
    exact rangeLoop_ok _ _ _ hconv
  refine ⟨?_, ?_, ?_⟩
  · intro lib2
    rw [prepareResponse_default lib res result ha hr,
      prepareResponse_default lib2 res result ha hr]
  · intro hconv
    refine ⟨_, hgen hconv, ?_, ?_⟩
    · intro k
      rw [← AList.mem_keys, ← AList.lookup_isSome, lookup_inserted]
      by_cases hk : k ∈ result.Data.keys
      · simp [hk]
      · simp [hk]
    · intro k hk
      rw [lookup_inserted, if_pos hk]
  · intro hidx
    have hmem : ∀ k, k ∈ result.Data.keys ↔ (k = "user" ∨ k = "pass") := by
      intro k
      rw [GoMap.mem_keys_iff, hidx, userPassData_index]
      by_cases h1 : k = "user"
      · simp [h1]
      · by_cases h2 : k = "pass"
        · simp [h2]
        · simp [h1, h2]
    have hval : ∀ k ∈ result.Data.keys, GetByteValueFromMap result.Data k =
        (if k = "user" then bytes "u1" else bytes "p1", none) := by
      intro k hk
      rcases (hmem k).mp hk with h | h
      · subst h
        exact GetByteValueFromMap_string (by rw [hidx, userPassData_index]; rfl)
      · subst h
        exact GetByteValueFromMap_string (by rw [hidx, userPassData_index]; rfl)
    have hconv : ∀ k ∈ result.Data.keys, (GetByteValueFromMap result.Data k).2 = none := by
      intro k hk
      rw [hval k hk]
    refine ⟨_, hgen hconv, ?_⟩
    intro k
    rw [GoMap.index_table, lookup_inserted, userPassBytes_index]
    by_cases hk : k ∈ result.Data.keys
    · rw [if_pos hk, hval k hk]
      rcases (hmem k).mp hk with h | h
      · subst h; rfl
      · subst h; rfl
    · rw [if_neg hk]
      have hn := fun h => hk ((hmem k).mpr h)
      have h1 : ¬ k = "user" := fun h => hn (Or.inl h)
      have h2 : ¬ k = "pass" := fun h => hn (Or.inr h)
      simp [h1, h2]

/-- The data `{"user":"u1","pass":"p1"}` under an empty result type. -/
theorem prepareResponse_data_witness :
    ∃ t, prepareResponse (demoCodec (demoSpec "" none "" false) (GoMap.nil, none))
        (demoSpec "" none "" false) ⟨userPassData, none, ()⟩ = (GoMap.table t, none, none) ∧
      ∀ k, (GoMap.table t).index k = userPassBytes.index k :=
  (prepareResponse_data (demoCodec (demoSpec "" none "" false) (GoMap.nil, none))
    (demoSpec "" none "" false) ⟨userPassData, none, ()⟩ (by decide) (by decide)).2.2
    (fun _ => rfl)

/-- C7 as stated fails: for the response whose auth structure holds the client token `abc` and
nothing else, re-encoded as `encoding/json` does, `prepareResponse` returns no error and a map
of eleven entries, among them `accessor`, which the one-entry map
`{"client_token": bytes("abc")}` does not have. -/
theorem auth_has_eleven_entries :
    (prepareResponse tokenAuthCodec (demoSpec "" none VaultDynamicSecretResultTypeAuth false)
      ⟨GoMap.nil, some tokenAuth, ()⟩).2.2 = none ∧
    (prepareResponse tokenAuthCodec (demoSpec "" none VaultDynamicSecretResultTypeAuth false)
      ⟨GoMap.nil, some tokenAuth, ()⟩).1.len = 11 ∧
    (prepareResponse tokenAuthCodec (demoSpec "" none VaultDynamicSecretResultTypeAuth false)
      ⟨GoMap.nil, some tokenAuth, ()⟩).1.index "client_token" = some (bytes "abc") ∧
    (prepareResponse tokenAuthCodec (demoSpec "" none VaultDynamicSecretResultTypeAuth false)
      ⟨GoMap.nil, some tokenAuth, ()⟩).1.index "accessor" = some [] ∧
    clientTokenOnly.index "accessor" = none ∧
    clientTokenOnly.len = 1 := by
  have hsel : sourceData tokenAuthCodec
      (demoSpec "" none VaultDynamicSecretResultTypeAuth false)
      ⟨GoMap.nil, some tokenAuth, ()⟩ = some tokenAuthDocument :=
    sourceData_auth _ _ _ tokenAuthJSON tokenAuthDocument rfl tokenAuthCodec_marshal
      tokenAuthCodec_decode
  have hconv : ∀ k ∈ tokenAuthDocument.keys,
      (GetByteValueFromMap tokenAuthDocument k).2 = none := by
    intro k hk
    rw [tokenAuthDocument_converts k hk]
  rw [prepareResponse_flatten _ _ _ _ hsel hconv]
  exact ⟨rfl, rfl, rfl, rfl, rfl, rfl⟩

/-- C7, amended: for the result type `Auth` and a response whose auth structure holds the
client token `abc` and nothing else, `prepareResponse` returns no error and the map of the
eleven fields of the re-encoded structure: `client_token` at `bytes("abc")`, and with it
`accessor`, `entity_id`, `policies`, `token_policies`, `identity_policies`, `metadata` and
`mfa_requirement` at the empty byte sequence, `orphan` and `renewable` at `bytes("false")` and
`lease_duration` at `bytes("0")`.  The codec is any whose re-encoding of the structure is,
as with `encoding/json`, its eleven-key document, in whatever order of the keys. -/
theorem prepareResponse_auth_fields (lib : Codec P R SecretAuth M)
    (res : VaultDynamicSecret P R) (result : Secret SecretAuth M) (text : Bytes)
    (doc : GoMap JSONValue)
    (ha : res.Spec.ResultType = VaultDynamicSecretResultTypeAuth)
    (hauth : result.Auth = some tokenAuth)
    (hm : lib.jsonMarshalAuth (some tokenAuth) = (text, none))
    (hu : lib.jsonUnmarshal text GoMap.make = (doc, none))
    (hdoc : ∀ k, doc.index k = tokenAuthDocument.index k) :
    ∃ t, prepareResponse lib res result = (GoMap.table t, none, none) ∧
      (∀ k, (GoMap.table t).index k = tokenAuthBytes.index k) ∧
      (GoMap.table t).len = 11 ∧
      (GoMap.table t).index "client_token" = some (bytes "abc") := by
  have hsel : sourceData lib res result = some doc :=
    sourceData_auth lib res result text doc ha (by rw [hauth]; exact hm) hu
  have hmem : ∀ k, k ∈ doc.keys ↔ k ∈ tokenAuthDocument.keys := by
    intro k
    rw [GoMap.mem_keys_iff, GoMap.mem_keys_iff, hdoc]
  have hval : ∀ k, GetByteValueFromMap doc k = GetByteValueFromMap tokenAuthDocument k :=
    fun k => GetByteValueFromMap_congr (hdoc k)
  have hconv : ∀ k ∈ doc.keys, (GetByteValueFromMap doc k).2 = none := by
    intro k hk
    rw [hval k, tokenAuthDocument_converts k ((hmem k).mp hk)]
  have hidx : ∀ k,
      (GoMap.table (inserted doc doc.keys ∅)).index k = tokenAuthBytes.index k := by
    intro k
    rw [GoMap.index_table, lookup_inserted]
    by_cases hk : k ∈ doc.keys
    · rw [if_pos hk, hval k, tokenAuthBytes_index_of_mem k ((hmem k).mp hk)]
    · rw [if_neg hk, AList.lookup_empty]
      have hk2 : k ∉ tokenAuthBytes.keys := by
        rw [tokenAuthBytes_keys]
        exact fun h => hk ((hmem k).mpr h)
      rw [GoMap.index_eq_none_of_not_mem _ _ hk2]
  refine ⟨_, prepareResponse_flatten lib res result doc hsel hconv, hidx, ?_, ?_⟩
  · rw [GoMap.len_eq_of_index _ tokenAuthBytes (fun k => by rw [hidx k])]
    rfl
  · rw [hidx]
    rfl

/-- The response `vault.SecretAuth{ClientToken: "abc"}` under the codec that knows its
encoding. -/
theorem prepareResponse_auth_fields_witness :
    ∃ t, prepareResponse tokenAuthCodec
        (demoSpec "" none VaultDynamicSecretResultTypeAuth false)
        ⟨userPassData, some tokenAuth, ()⟩ = (GoMap.table t, none, none) ∧
      (∀ k, (GoMap.table t).index k = tokenAuthBytes.index k) ∧
      (GoMap.table t).len = 11 ∧
      (GoMap.table t).index "client_token" = some (bytes "abc") :=
  prepareResponse_auth_fields tokenAuthCodec
    (demoSpec "" none VaultDynamicSecretResultTypeAuth false)
    ⟨userPassData, some tokenAuth, ()⟩ tokenAuthJSON tokenAuthDocument rfl rfl
    tokenAuthCodec_marshal tokenAuthCodec_decode (fun _ => rfl)

/-- C8 as stated fails: with the conversion helper of `pkg/utils`, which re-encodes a nested
object as JSON text, the data `{"a": {}, "b": {}}` holds a nested object at `a` (and at `b`),
yet `prepareResponse` returns no error and a map of two entries, each the text `{}`. -/
theorem nested_objects_are_converted :
    twoObjectsAB.index "a" = some (JSONValue.object []) ∧
    sourceData (demoCodec (demoSpec "" none "" false) (GoMap.nil, none))
      (demoSpec "" none "" false) ⟨twoObjectsAB, none, ()⟩ = some twoObjectsAB ∧
    prepareResponseWith (utilsGetByteValueFromMap emptyMarshal)
      (demoCodec (demoSpec "" none "" false) (GoMap.nil, none))
      (demoSpec "" none "" false) ⟨twoObjectsAB, none, ()⟩ =
        (GoMap.ofList [("b", bytes "\x7b\x7d"), ("a", bytes "\x7b\x7d")], none, none) ∧
    (GoMap.ofList [("b", bytes "\x7b\x7d"), ("a", bytes "\x7b\x7d")]).len = 2 :=
  ⟨rfl, rfl, rfl, rfl⟩

/-- C8, amended: a nested object at a key `k` of the selected source data is not rejected: the
conversion helper of `pkg/utils` re-encodes it as JSON text, and when every value of the
source data converts `prepareResponse` returns no error and a map over exactly the keys of the
source data that holds at `k` the JSON text of the object. -/
theorem prepareResponse_nested_object (marshal : JSONValue → Bytes × Option GoError)
    (lib : Codec P R A M) (res : VaultDynamicSecret P R) (result : Secret A M)
    (data : GoMap JSONValue) (k : String) (fields : List (String × JSONValue))
    (hsel : sourceData lib res result = some data)
    (hk : data.index k = some (JSONValue.object fields))
    (hall : ∀ j ∈ data.keys, (utilsGetByteValueFromMap marshal data j).2 = none) :
    utilsGetByteValueFromMap marshal data k = marshal (JSONValue.object fields) ∧
    ∃ t, prepareResponseWith (utilsGetByteValueFromMap marshal) lib res result =
        (GoMap.table t, none, none) ∧
      t.lookup k = some (marshal (JSONValue.object fields)).1 ∧
      ∀ j, j ∈ t.keys ↔ j ∈ data.keys := by
  have hconv : utilsGetByteValueFromMap marshal data k = marshal (JSONValue.object fields) := by
    simp only [utilsGetByteValueFromMap, hk, GetByteValue]
  have hmem : k ∈ data.keys := by rw [GoMap.mem_keys_iff, hk]; rfl
  refine ⟨hconv, insertedWith (utilsGetByteValueFromMap marshal) data data.keys ∅, ?_, ?_, ?_⟩
  · rw [prepareResponseWith_of_source _ lib res result data hsel]
    exact rangeLoopWith_ok _ _ _ _ hall
  · rw [lookup_insertedWith, if_pos hmem, hconv]
  · intro j
    rw [← AList.mem_keys, ← AList.lookup_isSome, lookup_insertedWith]
    by_cases hj : j ∈ data.keys
    · simp [hj]
    · simp [hj]

/-- The data `{"a": {}, "b": {}}`, asked about the key `b`. -/
theorem prepareResponse_nested_object_witness :
    utilsGetByteValueFromMap emptyMarshal twoObjectsAB "b" = (bytes "\x7b\x7d", none) ∧
    ∃ t, prepareResponseWith (utilsGetByteValueFromMap emptyMarshal)
        (demoCodec (demoSpec "" none "" false) (GoMap.nil, none))
        (demoSpec "" none "" false) ⟨twoObjectsAB, none, ()⟩ = (GoMap.table t, none, none) ∧
      t.lookup "b" = some (bytes "\x7b\x7d") ∧
      ∀ j, j ∈ t.keys ↔ j ∈ twoObjectsAB.keys :=
  prepareResponse_nested_object emptyMarshal
    (demoCodec (demoSpec "" none "" false) (GoMap.nil, none))
    (demoSpec "" none "" false) ⟨twoObjectsAB, none, ()⟩ twoObjectsAB "b" [] rfl rfl
    (by
      intro j hj
      have hj2 : j = "a" ∨ j = "b" := by
        have hkeys : twoObjectsAB.keys = ["a", "b"] := rfl
        rw [hkeys] at hj
        simpa using hj
      rcases hj2 with h | h <;> subst h <;> rfl)

end Normalization

end VaultDynamic
